import Mathlib

/-!
Verification of the NewsSummarizerBot scraper core
(`src/scripts/scraper.py` and `src/main.py`).

The development shallowly embeds the Python code:

* Python `int` is modelled by `Int`; `divmod` by `Int.fdiv` / `Int.fmod`
  (Python's floor-division semantics).
* Python dictionaries (string-keyed) are modelled by association lists
  over an inductive `Value` type; Python `None` is `Value.none`;
  `dict.get` with default `None` is `pyGet`.
* Fallible Python code (exceptions) is modelled with `Except PyError`.
* The wall clock is modelled by an explicit pair of parameters:
  `utcNow` (seconds since the Unix epoch) and `tzOffset` (the local
  timezone's offset from UTC in seconds); Python's naive
  `datetime.now()` reads `utcNow + tzOffset`.
* The fetch capability (`YoutubeService.search_videos` and the
  surrounding HTTP machinery, excluded by the spec's scope) is an
  injected function from a `FetchCall` to a page of raw items plus an
  optional continuation token.  The driver additionally returns the
  list of `FetchCall`s it issued, in order, so that call-trace
  properties (one call per planned page, token threading) can be
  stated.
-/

set_option maxRecDepth 8000

/-- Error kinds a run can surface.  `zeroDivision` models Python's
`ZeroDivisionError` (raised by `divmod(N, 0)`); `attributeError` models
the `AttributeError` raised when `.get` is called on a non-dict;
`invalidArgument` is the spec's `InvalidArgument` kind (never raised by
the reference code); `fetchFailure` is an opaque provider failure. -/
inductive PyError where
  | zeroDivision
  | invalidArgument
  | attributeError
  | fetchFailure (msg : String)
deriving DecidableEq, Repr

/-- Decidable equality of `Except` results, so concrete runs can be
checked by `decide`. -/
def Except.decEq {ε α : Type} [DecidableEq ε] [DecidableEq α] :
    (a b : Except ε α) → Decidable (a = b)
  | .ok a, .ok b =>
    if h : a = b then .isTrue (by rw [h])
    else .isFalse (fun hh => h (Except.ok.inj hh))
  | .ok _, .error _ => .isFalse (fun h => Except.noConfusion h)
  | .error _, .ok _ => .isFalse (fun h => Except.noConfusion h)
  | .error e, .error f =>
    if h : e = f then .isTrue (by rw [h])
    else .isFalse (fun hh => h (Except.error.inj hh))

instance {ε α : Type} [DecidableEq ε] [DecidableEq α] :
    DecidableEq (Except ε α) := Except.decEq

/-- A Python value as the scraper manipulates them: `None`, strings,
and string-keyed dictionaries (association lists, first key wins, as
Python dict keys are unique). -/
inductive Value where
  | none
  | str (s : String)
  | dict (entries : List (String × Value))

mutual

/-- Decidable equality for `Value` (the nested list prevents
`deriving`). -/
def Value.decEq : (a b : Value) → Decidable (a = b)
  | .none, .none => .isTrue rfl
  | .none, .str _ => .isFalse (fun h => Value.noConfusion h)
  | .none, .dict _ => .isFalse (fun h => Value.noConfusion h)
  | .str _, .none => .isFalse (fun h => Value.noConfusion h)
  | .str a, .str b =>
    if h : a = b then .isTrue (by rw [h])
    else .isFalse (fun hh => h (Value.str.inj hh))
  | .str _, .dict _ => .isFalse (fun h => Value.noConfusion h)
  | .dict _, .none => .isFalse (fun h => Value.noConfusion h)
  | .dict _, .str _ => .isFalse (fun h => Value.noConfusion h)
  | .dict d, .dict e =>
    match Value.decEqEntries d e with
    | .isTrue h => .isTrue (by rw [h])
    | .isFalse h => .isFalse (fun hh => h (Value.dict.inj hh))

/-- Decidable equality for entry lists of `Value` dictionaries. -/
def Value.decEqEntries :
    (d e : List (String × Value)) → Decidable (d = e)
  | [], [] => .isTrue rfl
  | [], _ :: _ => .isFalse (fun h => List.noConfusion h)
  | _ :: _, [] => .isFalse (fun h => List.noConfusion h)
  | (k, v) :: d, (l, w) :: e =>
    match Value.decEq v w, Value.decEqEntries d e with
    | .isTrue hv, .isTrue hd =>
      if hk : k = l then .isTrue (by rw [hk, hv, hd])
      else .isFalse (fun hh => by
        injection hh with h1 h2
        exact hk (congrArg Prod.fst h1))
    | .isFalse hv, _ => .isFalse (fun hh => by
        injection hh with h1 h2
        exact hv (congrArg Prod.snd h1))
    | .isTrue _, .isFalse hd => .isFalse (fun hh => by
        injection hh with h1 h2
        exact hd h2)

end

instance : DecidableEq Value := Value.decEq

/-- A Python dictionary. -/
abbrev Dict := List (String × Value)

/-- A raw search-result item, as returned inside a page. -/
abbrev RawItem := Dict

/-- One page of raw items. -/
abbrev Page := List RawItem

/-- `d.get(k)` on a Python dict: the stored value, or `None` when the
key is absent. -/
def pyGet (d : Dict) (k : String) : Value :=
  (d.lookup k).getD Value.none

/-- View a `Value` as a dictionary; fails (models `AttributeError` on
a subsequent `.get`) when the value is not a dict. -/
def Value.asDict : Value → Option Dict
  | .dict d => some d
  | _ => Option.none

/-- `response.get(k, {})`: the stored value viewed as a dict, the
empty dict when the key is absent, failure when the stored value is
not a dict. -/
def pyGetDictD (d : Dict) (k : String) : Option Dict :=
  match d.lookup k with
  | Option.none => some []
  | some v => v.asDict

/-- `split_batches(N, X)` from `src/scripts/scraper.py` lines 9-21:
`quotient, remainder = divmod(N, X)` followed by
`[X] * quotient + ([remainder] if remainder else [])`.
Python's `divmod` floor-divides, `[X] * q` is empty for `q ≤ 0`, and
`divmod(N, 0)` raises `ZeroDivisionError`. -/
def split_batches (N X : Int) : Except PyError (List Int) :=
  if X = 0 then .error .zeroDivision
  else
    let quotient := Int.fdiv N X
    let remainder := Int.fmod N X
    .ok (List.replicate quotient.toNat X ++
      (if remainder ≠ 0 then [remainder] else []))

/-- `parse_youtube_response(response)` from `src/scripts/scraper.py`
lines 74-111: flatten one raw item into a record over a fixed key set,
then drop every key whose value is `None`.  Returns `Option.none` when
the Python code would raise (`snippet` or `id` present but not a
dict). -/
def parse_youtube_response (response : Dict) : Option Dict := do
  let data ← pyGetDictD response "snippet"
  let idDict ← pyGetDictD response "id"
  let flattened_data : Dict :=
    [("etag", pyGet response "etag"),
     ("kind", pyGet response "kind"),
     ("videoId", pyGet idDict "videoId"),
     ("channelId", pyGet data "channelId"),
     ("publishedAt", pyGet data "publishedAt"),
     ("title", pyGet data "title"),
     ("description", pyGet data "description"),
     ("thumbnails", pyGet data "thumbnails"),
     ("channelTitle", pyGet data "channelTitle"),
     ("liveBroadcastContent", pyGet data "liveBroadcastContent"),
     ("publishTime", pyGet data "publishTime")]
  return flattened_data.filter (fun kv => kv.2 ≠ Value.none)

/-- The fixed key set a parsed record draws from. -/
def resultRecordKeys : List String :=
  ["etag", "kind", "videoId", "channelId", "publishedAt", "title",
   "description", "thumbnails", "channelTitle", "liveBroadcastContent",
   "publishTime"]

/-! ### Civil-calendar timestamp rendering

`week_ago_dt.strftime("%Y-%m-%dT%H:%M:%SZ")` (line 129).  Seconds
since the Unix epoch are converted to a Gregorian civil date
(days-to-civil algorithm) and rendered with second precision and a
literal `Z` suffix. -/

/-- Convert a day count (days since 1970-01-01) to a civil
(year, month, day) triple of the proleptic Gregorian calendar. -/
def civilFromDays (z : Int) : Int × Nat × Nat :=
  let zs := z + 719468
  let era := zs.ediv 146097
  let doe := (zs - era * 146097).toNat
  let yoe := (doe - doe / 1460 + doe / 36524 - doe / 146096) / 365
  let doy := doe - (365 * yoe + yoe / 4 - yoe / 100)
  let mp := (5 * doy + 2) / 153
  let d := doy - (153 * mp + 2) / 5 + 1
  let m := if mp < 10 then mp + 3 else mp - 9
  ((yoe : Int) + era * 400 + (if m ≤ 2 then 1 else 0), m, d)

/-- Zero-pad a number to two digits. -/
def pad2 (n : Nat) : String :=
  if n < 10 then "0" ++ toString n else toString n

/-- Render a year as `%Y` does (four digits for the years at play). -/
def padYear (y : Int) : String :=
  if 0 ≤ y ∧ y < 10 then "000" ++ toString y
  else if 0 ≤ y ∧ y < 100 then "00" ++ toString y
  else if 0 ≤ y ∧ y < 1000 then "0" ++ toString y
  else toString y

/-- `dt.strftime("%Y-%m-%dT%H:%M:%SZ")` for a naive datetime holding
the instant `t` seconds since the Unix epoch: ISO-8601 layout, second
precision, literal `Z`. -/
def formatTimestamp (t : Int) : String :=
  let days := t.ediv 86400
  let secs := (t.emod 86400).toNat
  let ymd := civilFromDays days
  padYear ymd.1 ++ "-" ++ pad2 ymd.2.1 ++ "-" ++ pad2 ymd.2.2 ++ "T" ++
    pad2 (secs / 3600) ++ ":" ++ pad2 (secs % 3600 / 60) ++ ":" ++
    pad2 (secs % 60) ++ "Z"

/-! ### The pagination driver (`search_youtube`, lines 114-148) -/

/-- The argument tuple of one `youtube_service.search_videos` call
(line 140-142): search term, requested result count, `publishedAfter`
bound, and the continuation token (`None` on the first call). -/
structure FetchCall where
  subject : String
  maxResults : Int
  publishedAfter : String
  pageToken : Option String
deriving DecidableEq, Repr

/-- The injected fetch capability: one page of raw items plus the next
continuation token, or a failure. -/
abbrev FetchCap := FetchCall → Except PyError (Page × Option String)

/-- The `for batch_size in batch_sizes` loop of `search_youtube`
(lines 139-145): one fetch per planned size, threading the returned
token into the next call, parsing every item of each page as it
arrives.  Returns the ordered list of fetch calls actually issued
together with either the per-page parsed records or the first error
(a fetch failure, or the `AttributeError` a malformed item raises in
`parse_youtube_response`). -/
def runPlan (fetch : FetchCap) (subject pub : String) :
    List Int → Option String →
      List FetchCall × Except PyError (List (List Dict))
  | [], _ => ([], .ok [])
  | b :: rest, tok =>
    match fetch ⟨subject, b, pub, tok⟩ with
    | .error e => ([⟨subject, b, pub, tok⟩], .error e)
    | .ok (page, tok2) =>
      match page.mapM parse_youtube_response with
      | Option.none => ([⟨subject, b, pub, tok⟩], .error .attributeError)
      | some parsed =>
        (⟨subject, b, pub, tok⟩ :: (runPlan fetch subject pub rest tok2).1,
          (runPlan fetch subject pub rest tok2).2.map (parsed :: ·))

/-- `search_youtube(subject, video_list_size, amount_weeks)` (lines
114-148) with the wall clock (`utcNow`, `tzOffset`, both in seconds)
and the fetch capability made explicit.  `datetime.now()` reads the
local wall clock `utcNow + tzOffset`; `timedelta(weeks=w)` is
`w * 604800` seconds; the batch plan is computed with the constant
`MAX_YOUTUBE_API_RESULTS = 50`; the first call's token is absent; the
per-page record lists are flattened at the end (`chain(*...)`). -/
def search_youtube (fetch : FetchCap) (subject : String)
    (video_list_size : Int) (amount_weeks : Int) (utcNow tzOffset : Int) :
    List FetchCall × Except PyError (List Dict) :=
  let week_ago_formatted :=
    formatTimestamp (utcNow + tzOffset - amount_weeks * 604800)
  match split_batches video_list_size 50 with
  | .error e => ([], .error e)
  | .ok batch_sizes =>
    let out := runPlan fetch subject week_ago_formatted batch_sizes Option.none
    (out.1, out.2.map List.flatten)

/-! ### Fake fetch capabilities used by the concrete scenarios -/

/-- A raw item with a full, well-formed shape (snippet and id are
dicts), tagged by an index so items stay distinguishable. -/
def mkItem (n : Nat) : RawItem :=
  [("etag", .str ("etag" ++ toString n)),
   ("kind", .str "youtube#searchResult"),
   ("id", .dict [("kind", .str "youtube#video"),
                 ("videoId", .str ("vid" ++ toString n))]),
   ("snippet", .dict
     [("channelId", .str ("chan" ++ toString n)),
      ("publishedAt", .str "2024-01-01T00:00:00Z"),
      ("title", .str ("title" ++ toString n)),
      ("description", .str ("desc" ++ toString n)),
      ("thumbnails", .dict [("default", .dict [("url", .str "u")])]),
      ("channelTitle", .str "chan"),
      ("liveBroadcastContent", .str "upcoming"),
      ("publishTime", .str "2024-01-01T00:00:00Z")])]

/-- A page of `k` well-formed raw items. -/
def fakePage (k : Nat) : Page := (List.range k).map mkItem

/-- The spec's driver-scenario capability: pages of sizes 50, 50, 20
with continuation tokens `t1`, `t2`, absent, keyed on the incoming
token. -/
def fakeFetch : FetchCap := fun call =>
  match call.pageToken with
  | Option.none => .ok (fakePage 50, some "t1")
  | some "t1" => .ok (fakePage 50, some "t2")
  | some "t2" => .ok (fakePage 20, Option.none)
  | some _ => .error (.fetchFailure "unknown token")

/-- The driver-restart capability: signals exhaustion (absent token)
on the second call, then hands out `t1` again when paged from an
absent token. -/
def cycleFetch : FetchCap := fun call =>
  match call.pageToken with
  | Option.none => .ok (fakePage 50, some "t1")
  | some "t1" => .ok (fakePage 50, Option.none)
  | some _ => .error (.fetchFailure "unknown token")

/-- A capability that fails on every call after the first. -/
def failFetch : FetchCap := fun call =>
  match call.pageToken with
  | Option.none => .ok (fakePage 50, some "t1")
  | some _ => .error (.fetchFailure "boom")

/-- A raw item whose snippet lacks a description (used by the C7
witness). -/
def itemNoDesc : RawItem :=
  [("etag", .str "e"), ("id", .dict [("videoId", .str "v")]),
   ("snippet", .dict [("title", .str "t")])]

/-! ### Lemmas about the pagination loop -/

/-- Case inversion for one loop iteration: a step either fails at the
fetch, fails at the parse, or succeeds and recurses on the returned
token. -/
theorem runPlan_cons_inv (fetch : FetchCap) (subject pub : String)
    (b : Int) (rest : List Int) (tok : Option String)
    (calls : List FetchCall) (res : Except PyError (List (List Dict)))
    (h : runPlan fetch subject pub (b :: rest) tok = (calls, res)) :
    (∃ e, fetch ⟨subject, b, pub, tok⟩ = .error e ∧
      calls = [⟨subject, b, pub, tok⟩] ∧ res = .error e) ∨
    (∃ page tok2, fetch ⟨subject, b, pub, tok⟩ = .ok (page, tok2) ∧
      page.mapM parse_youtube_response = Option.none ∧
      calls = [⟨subject, b, pub, tok⟩] ∧
      res = .error PyError.attributeError) ∨
    (∃ page tok2 parsed, fetch ⟨subject, b, pub, tok⟩ = .ok (page, tok2) ∧
      page.mapM parse_youtube_response = some parsed ∧
      calls = ⟨subject, b, pub, tok⟩ ::
        (runPlan fetch subject pub rest tok2).1 ∧
      res = (runPlan fetch subject pub rest tok2).2.map (parsed :: ·)) := by
  rw [runPlan] at h
  split at h
  · exact .inl ⟨_, by assumption, (congrArg Prod.fst h).symm,
      (congrArg Prod.snd h).symm⟩
  · split at h
    · exact .inr (.inl ⟨_, _, by assumption, by assumption,
        (congrArg Prod.fst h).symm, (congrArg Prod.snd h).symm⟩)
    · exact .inr (.inr ⟨_, _, _, by assumption, by assumption,
        (congrArg Prod.fst h).symm, (congrArg Prod.snd h).symm⟩)

theorem except_map_ok {ε α β : Type} (f : α → β) (a : α) :
    (Except.ok a : Except ε α).map f = .ok (f a) := rfl

theorem except_map_error {ε α β : Type} (f : α → β) (e : ε) :
    (Except.error e : Except ε α).map f = .error e := rfl

/-- A successful `Option`-monadic map visits every element: each
output comes from some input. -/
theorem mapM_option_mem {α β : Type} (f : α → Option β) :
    ∀ (l : List α) (l2 : List β), l.mapM f = some l2 →
      ∀ b ∈ l2, ∃ a ∈ l, f a = some b := by
  intro l
  induction l with
  | nil =>
    intro l2 h b hb
    simp only [List.mapM_nil, pure, Option.some.injEq] at h
    subst h
    simp at hb
  | cons a rest ih =>
    intro l2 h b hb
    rw [List.mapM_cons] at h
    rcases hfa : f a with _ | b0 <;> rw [hfa] at h
    · simp at h
    · rcases hrest : rest.mapM f with _ | l3 <;> rw [hrest] at h
      · simp at h
      · simp at h
        subst h
        rcases List.mem_cons.1 hb with hb | hb
        · subst hb
          exact ⟨a, List.mem_cons_self a rest, hfa⟩
        · obtain ⟨a2, ha2, hfa2⟩ := ih l3 hrest b hb
          exact ⟨a2, List.mem_cons_of_mem a ha2, hfa2⟩

/-- A successful `Option`-monadic map preserves length. -/
theorem mapM_option_length {α β : Type} (f : α → Option β) :
    ∀ (l : List α) (l2 : List β), l.mapM f = some l2 →
      l2.length = l.length := by
  intro l
  induction l with
  | nil =>
    intro l2 h
    simp only [List.mapM_nil, pure, Option.some.injEq] at h
    subst h
    rfl
  | cons a rest ih =>
    intro l2 h
    rw [List.mapM_cons] at h
    rcases hfa : f a with _ | b0 <;> rw [hfa] at h
    · simp at h
    · rcases hrest : rest.mapM f with _ | l3 <;> rw [hrest] at h
      · simp at h
      · simp at h
        subst h
        simp [ih l3 hrest]

/-- The first call a loop run issues carries the initial token, the
loop's constant subject and bound, and the first planned size. -/
theorem runPlan_head (fetch : FetchCap) (subject pub : String)
    (plan : List Int) (tok : Option String) (calls : List FetchCall)
    (res : Except PyError (List (List Dict))) (c : FetchCall)
    (h : runPlan fetch subject pub plan tok = (calls, res))
    (h0 : calls[0]? = some c) :
    c.pageToken = tok ∧ c.subject = subject ∧ c.publishedAfter = pub ∧
      plan.head? = some c.maxResults := by
  match plan with
  | [] =>
    rw [runPlan] at h
    injection h with h1 h2
    subst h1
    simp at h0
  | b :: rest =>
    rcases runPlan_cons_inv _ _ _ _ _ _ _ _ h with
        ⟨e, hf, hc, hr⟩ | ⟨page, tok2, hf, hp, hc, hr⟩ |
        ⟨page, tok2, parsed, hf, hp, hc, hr⟩ <;>
      subst hc <;> simp at h0 <;> subst h0 <;> simp

/-- Every call the loop issues carries the loop's constant subject and
`publishedAfter` bound. -/
theorem runPlan_call_fields (fetch : FetchCap) (subject pub : String) :
    ∀ (plan : List Int) (tok : Option String) calls res c,
      runPlan fetch subject pub plan tok = (calls, res) →
      c ∈ calls → c.subject = subject ∧ c.publishedAfter = pub := by
  intro plan
  induction plan with
  | nil =>
    intro tok calls res c h hc
    rw [runPlan] at h
    injection h with h1 h2
    subst h1
    simp at hc
  | cons b rest ih =>
    intro tok calls res c h hc
    rcases runPlan_cons_inv _ _ _ _ _ _ _ _ h with
        ⟨e, hf, hcalls, hr⟩ | ⟨page, tok2, hf, hp, hcalls, hr⟩ |
        ⟨page, tok2, parsed, hf, hp, hcalls, hr⟩ <;> subst hcalls
    · simp at hc
      subst hc
      exact ⟨rfl, rfl⟩
    · simp at hc
      subst hc
      exact ⟨rfl, rfl⟩
    · rcases List.mem_cons.1 hc with hc | hc
      · subst hc
        exact ⟨rfl, rfl⟩
      · exact ih tok2 _ _ c rfl hc

/-- When the loop's run succeeds it issued exactly one call per
planned size, in plan order, passing the planned size as the
requested result count; it produced one parsed page per planned
size. -/
theorem runPlan_calls_of_ok (fetch : FetchCap) (subject pub : String) :
    ∀ (plan : List Int) (tok : Option String) calls pages,
      runPlan fetch subject pub plan tok = (calls, .ok pages) →
      calls.map (fun c => c.maxResults) = plan ∧
      pages.length = plan.length := by
  intro plan
  induction plan with
  | nil =>
    intro tok calls pages h
    rw [runPlan] at h
    injection h with h1 h2
    subst h1
    injection h2 with h3
    subst h3
    simp
  | cons b rest ih =>
    intro tok calls pages h
    rcases runPlan_cons_inv _ _ _ _ _ _ _ _ h with
        ⟨e, hf, hcalls, hr⟩ | ⟨page, tok2, hf, hp, hcalls, hr⟩ |
        ⟨page, tok2, parsed, hf, hp, hcalls, hr⟩
    · exact absurd hr (by simp)
    · exact absurd hr (by simp)
    · subst hcalls
      rcases hres2 : (runPlan fetch subject pub rest tok2).2 with e2 | pages2
      · rw [hres2, except_map_error] at hr
        exact absurd hr (by simp)
      · rw [hres2, except_map_ok] at hr
        injection hr with hr2
        subst hr2
        obtain ⟨ih1, ih2⟩ := ih tok2 _ pages2 (by rw [← hres2])
        simp [ih1, ih2]

/-- Token threading: whenever two consecutive calls appear in the
trace, the earlier call's fetch succeeded and the later call passes
exactly the token that fetch returned. -/
theorem runPlan_thread (fetch : FetchCap) (subject pub : String) :
    ∀ (plan : List Int) (tok : Option String) calls res (i : Nat) c1 c2,
      runPlan fetch subject pub plan tok = (calls, res) →
      calls[i]? = some c1 → calls[i + 1]? = some c2 →
      ∃ page t, fetch c1 = .ok (page, t) ∧ c2.pageToken = t := by
  intro plan
  induction plan with
  | nil =>
    intro tok calls res i c1 c2 h h1 h2
    rw [runPlan] at h
    injection h with ha hb
    subst ha
    simp at h1
  | cons b rest ih =>
    intro tok calls res i c1 c2 h h1 h2
    rcases runPlan_cons_inv _ _ _ _ _ _ _ _ h with
        ⟨e, hf, hcalls, hr⟩ | ⟨page, tok2, hf, hp, hcalls, hr⟩ |
        ⟨page, tok2, parsed, hf, hp, hcalls, hr⟩
    · subst hcalls
      simp at h2
    · subst hcalls
      simp at h2
    · subst hcalls
      match i with
      | 0 =>
        simp at h1
        subst h1
        simp at h2
        obtain ⟨htok, -, -, -⟩ :=
          runPlan_head fetch subject pub rest tok2 _ _ c2 rfl h2
        exact ⟨page, tok2, hf, htok⟩
      | j + 1 =>
        simp at h1 h2
        exact ih tok2 _ _ j c1 c2 rfl h1 h2

/-- If the fetch capability fails at a call that appears in the
trace, that call is the last one (no further planned fetches are
issued) and the loop's result is exactly that error. -/
theorem runPlan_stop (fetch : FetchCap) (subject pub : String) :
    ∀ (plan : List Int) (tok : Option String) calls res (i : Nat) c e,
      runPlan fetch subject pub plan tok = (calls, res) →
      calls[i]? = some c → fetch c = .error e →
      calls.length = i + 1 ∧ res = .error e := by
  intro plan
  induction plan with
  | nil =>
    intro tok calls res i c e h h1 hfc
    rw [runPlan] at h
    injection h with ha hb
    subst ha
    simp at h1
  | cons b rest ih =>
    intro tok calls res i c e h h1 hfc
    rcases runPlan_cons_inv _ _ _ _ _ _ _ _ h with
        ⟨e2, hf, hcalls, hr⟩ | ⟨page, tok2, hf, hp, hcalls, hr⟩ |
        ⟨page, tok2, parsed, hf, hp, hcalls, hr⟩ <;> subst hcalls
    · match i with
      | 0 =>
        simp at h1
        subst h1
        rw [hf] at hfc
        injection hfc with he
        subst he
        exact ⟨rfl, hr⟩
      | j + 1 =>
        simp at h1
    · match i with
      | 0 =>
        simp at h1
        subst h1
        rw [hf] at hfc
        exact absurd hfc (by simp)
      | j + 1 =>
        simp at h1
    · match i with
      | 0 =>
        simp at h1
        subst h1
        rw [hf] at hfc
        exact absurd hfc (by simp)
      | j + 1 =>
        simp at h1
        obtain ⟨ih1, ih2⟩ := ih tok2 _ _ j c e rfl h1 hfc
        rw [ih2, except_map_error] at hr
        simp [ih1, hr]

/-- Content of a successful run: there is a list of raw pages, one
per issued call, such that each call's fetch returned the
corresponding raw page, and the loop's output is exactly the
per-item normalization of those raw pages, orders preserved. -/
theorem runPlan_content (fetch : FetchCap) (subject pub : String) :
    ∀ (plan : List Int) (tok : Option String) calls pages,
      runPlan fetch subject pub plan tok = (calls, .ok pages) →
      ∃ rawPages : List Page,
        rawPages.length = calls.length ∧
        (∀ (i : Nat) c raw, calls[i]? = some c → rawPages[i]? = some raw →
          ∃ t, fetch c = .ok (raw, t)) ∧
        rawPages.mapM (fun p => p.mapM parse_youtube_response)
          = some pages := by
  intro plan
  induction plan with
  | nil =>
    intro tok calls pages h
    rw [runPlan] at h
    injection h with ha hb
    subst ha
    injection hb with hb2
    subst hb2
    exact ⟨[], rfl, by intro i c raw h1 _; simp at h1, rfl⟩
  | cons b rest ih =>
    intro tok calls pages h
    rcases runPlan_cons_inv _ _ _ _ _ _ _ _ h with
        ⟨e, hf, hcalls, hr⟩ | ⟨page, tok2, hf, hp, hcalls, hr⟩ |
        ⟨page, tok2, parsed, hf, hp, hcalls, hr⟩
    · exact absurd hr (by simp)
    · exact absurd hr (by simp)
    · subst hcalls
      rcases hres2 : (runPlan fetch subject pub rest tok2).2 with e2 | pages2
      · rw [hres2, except_map_error] at hr
        exact absurd hr (by simp)
      · rw [hres2, except_map_ok] at hr
        injection hr with hr2
        subst hr2
        obtain ⟨raw2, hlen, hcall, hmap⟩ := ih tok2 _ pages2 (by rw [← hres2])
        refine ⟨page :: raw2, by simp [hlen], ?_, ?_⟩
        · intro i c raw h1 h2
          match i with
          | 0 =>
            simp at h1 h2
            subst h1
            subst h2
            exact ⟨tok2, hf⟩
          | j + 1 =>
            simp at h1 h2
            exact hcall j c raw h1 h2
        · rw [List.mapM_cons, hp, hmap]
          rfl

/-! ### Lemmas about the batch planner -/

/-- Sum of a replicated integer list. -/
theorem sum_replicate_int (n : Nat) (x : Int) :
    (List.replicate n x).sum = n * x := by
  induction n with
  | zero => simp
  | succ k ih =>
    rw [List.replicate_succ, List.sum_cons, ih]
    push_cast
    ring

/-- For any non-zero page size the planner returns a value (floor
form). -/
theorem split_batches_ok (N X : Int) (hX : X ≠ 0) :
    split_batches N X = .ok (List.replicate (Int.fdiv N X).toNat X ++
      (if Int.fmod N X ≠ 0 then [Int.fmod N X] else [])) := by
  simp only [split_batches, hX, if_false]

/-- For page size zero the planner raises `ZeroDivisionError`. -/
theorem split_batches_zero (N : Int) :
    split_batches N 0 = .error PyError.zeroDivision := rfl

/-- On a non-negative total and a positive page size, `split_batches`
succeeds and floor division agrees with Euclidean division. -/
theorem split_batches_eq_of_pos (N X : Int) (hX : 0 < X) :
    split_batches N X = .ok (List.replicate ((N / X).toNat) X ++
      (if N % X ≠ 0 then [N % X] else [])) := by
  have hX0 : X ≠ 0 := by omega
  simp only [split_batches, hX0, if_false]
  rw [Int.fdiv_eq_ediv _ (by omega), Int.fmod_eq_emod _ (by omega)]

/-- The division facts used throughout: `N = X * (N / X) + N % X` with
`0 ≤ N % X < X` and `0 ≤ N / X`. -/
theorem ediv_emod_facts (N X : Int) (hN : 0 ≤ N) (hX : 0 < X) :
    N = N / X * X + N % X ∧ 0 ≤ N % X ∧ N % X < X ∧ 0 ≤ N / X :=
  ⟨(Int.emod_add_ediv N X).symm.trans (by ring),
   Int.emod_nonneg N (by omega), Int.emod_lt_of_pos N hX,
   Int.ediv_nonneg hN (by omega)⟩

/-! ### Claims about the batch planner -/

/-- C1: for every non-negative total `N` and positive page size `X`,
`split_batches` returns a list summing exactly to `N` whose every
element is strictly positive and at most `X`; moreover
`plan(50,50) = [50]`, `plan(250,50) = [50,50,50,50,50]`,
`plan(251,50) = [50,50,50,50,50,1]` and `plan(49,50) = [49]`. -/
theorem split_batches_sum_and_bounds (N X : Int) (hN : 0 ≤ N) (hX : 0 < X) :
    (∃ l, split_batches N X = .ok l ∧ l.sum = N ∧
      ∀ b ∈ l, 0 < b ∧ b ≤ X) ∧
    split_batches 50 50 = .ok [50] ∧
    split_batches 250 50 = .ok [50, 50, 50, 50, 50] ∧
    split_batches 251 50 = .ok [50, 50, 50, 50, 50, 1] ∧
    split_batches 49 50 = .ok [49] := by
  refine ⟨?_, by decide, by decide, by decide, by decide⟩
  obtain ⟨hNX, hr0, hrX, hq0⟩ := ediv_emod_facts N X hN hX
  refine ⟨_, split_batches_eq_of_pos N X hX, ?_, ?_⟩
  · rw [List.sum_append, sum_replicate_int,
      Int.toNat_of_nonneg hq0]
    by_cases hr : N % X = 0 <;> simp [hr] <;> omega
  · intro b hb
    rcases List.mem_append.1 hb with hb | hb
    · have := List.eq_of_mem_replicate hb
      omega
    · by_cases hr : N % X = 0
      · simp [hr] at hb
      · simp [hr] at hb
        omega

/-- C1 witness: the planner on total 7, page size 3. -/
theorem split_batches_sum_and_bounds_witness :
    ∃ l, split_batches 7 3 = .ok l ∧ l.sum = 7 ∧
      ∀ b ∈ l, 0 < b ∧ b ≤ 3 :=
  (split_batches_sum_and_bounds 7 3 (by decide) (by decide)).1

/-- Euclidean characterisation of the ceiling `(N + X - 1) / X`. -/
theorem ceil_div_eq (N X : Int) (hN : 0 ≤ N) (hX : 0 < X) :
    (N + X - 1) / X = N / X + (if N % X = 0 then 0 else 1) := by
  obtain ⟨hNX, hr0, hrX, hq0⟩ := ediv_emod_facts N X hN hX
  have hX0 : X ≠ 0 := by omega
  have h1 : N + X - 1 = (N % X + X - 1) + N / X * X := by omega
  by_cases hr : N % X = 0
  · have h2 : N % X + X - 1 = X - 1 := by omega
    rw [h1, Int.add_mul_ediv_right _ _ hX0, h2,
      Int.ediv_eq_zero_of_lt (by omega) (by omega), if_pos hr]
    omega
  · have h2 : N % X + X - 1 = (N % X - 1) + 1 * X := by omega
    rw [h1, Int.add_mul_ediv_right _ _ hX0, h2,
      Int.add_mul_ediv_right _ _ hX0,
      Int.ediv_eq_zero_of_lt (by omega) (by omega), if_neg hr]
    omega

/-- C5: for every non-negative total `N` and positive page size `X`,
the plan's length is exactly `⌈N / X⌉`, its last element is the
remainder `N % X` when that remainder is non-zero and the remainder is
omitted otherwise (the plan is then exactly the full pages — no
zero-sized page is emitted), zero never occurs in a plan, and the plan
of total 0 is empty for every positive page size. -/
theorem split_batches_length_and_last (N X : Int) (hN : 0 ≤ N)
    (hX : 0 < X) :
    (∃ l, split_batches N X = .ok l ∧
      (l.length : Int) = (N + X - 1) / X ∧
      (N % X ≠ 0 → l.getLast? = some (N % X)) ∧
      (N % X = 0 → l = List.replicate ((N / X).toNat) X) ∧
      (0 : Int) ∉ l ∧
      (N = 0 → l = [])) ∧
    split_batches 0 X = .ok [] := by
  obtain ⟨hNX, hr0, hrX, hq0⟩ := ediv_emod_facts N X hN hX
  constructor
  · refine ⟨_, split_batches_eq_of_pos N X hX, ?_, ?_, ?_, ?_, ?_⟩
    · rw [List.length_append, List.length_replicate, ceil_div_eq N X hN hX]
      by_cases hr : N % X = 0 <;> simp [hr] <;> omega
    · intro hr
      rw [if_pos hr, List.getLast?_concat]
    · intro hr
      simp [hr]
    · intro h0
      rcases List.mem_append.1 h0 with h | h
      · have := List.eq_of_mem_replicate h
        omega
      · by_cases hr : N % X = 0
        · simp [hr] at h
        · simp [hr] at h
          omega
    · intro h0
      have hq : N / X = 0 := by
        subst h0
        exact Int.zero_ediv X
      have hr : N % X = 0 := by
        subst h0
        exact Int.zero_emod X
      simp [hq, hr]
  · rw [split_batches_eq_of_pos 0 X hX]
    simp

/-- C5 witness: the planner on total 7, page size 3 (and the empty
plan for total 0). -/
theorem split_batches_length_and_last_witness :
    (∃ l, split_batches 7 3 = .ok l ∧
      (l.length : Int) = (7 + 3 - 1) / 3 ∧
      ((7 : Int) % 3 ≠ 0 → l.getLast? = some ((7 : Int) % 3)) ∧
      ((7 : Int) % 3 = 0 → l = List.replicate (((7 : Int) / 3).toNat) 3) ∧
      (0 : Int) ∉ l ∧
      ((7 : Int) = 0 → l = [])) ∧
    split_batches 0 3 = .ok [] :=
  split_batches_length_and_last 7 3 (by decide) (by decide)

/-- C9 counterexample: the planner does not fail with
`InvalidArgument` on a negative total or a non-positive page size.  On
total `-1` with page size 50 it returns the value `[49]` (Python's
floor-division `divmod`); on page size `0` it raises
`ZeroDivisionError`, a different kind; on page size `-7` it returns
the value `[-6]`. -/
theorem split_batches_no_invalid_argument_cex :
    split_batches (-1) 50 = .ok [49] ∧
    split_batches (-1) 50 ≠ .error PyError.invalidArgument ∧
    split_batches 50 0 = .error PyError.zeroDivision ∧
    split_batches 50 0 ≠ .error PyError.invalidArgument ∧
    split_batches 50 (-7) = .ok [-6] ∧
    split_batches 50 (-7) ≠ .error PyError.invalidArgument := by
  decide

/-- C9 amended: the planner never signals `InvalidArgument`.  For any
total and any non-zero page size — negative inputs included — it
returns a value (per Python floor-division semantics), and for page
size zero it fails with the `ZeroDivisionError` kind. -/
theorem split_batches_error_kinds (N X : Int) :
    (X ≠ 0 → ∃ l, split_batches N X = .ok l) ∧
    (X = 0 → split_batches N X = .error PyError.zeroDivision) := by
  constructor
  · intro h
    exact ⟨_, split_batches_ok N X h⟩
  · intro h
    subst h
    exact split_batches_zero N

/-- C9 witness: the amended claim at total `-1`, page sizes 50 and
0. -/
theorem split_batches_error_kinds_witness :
    (∃ l, split_batches (-1) 50 = .ok l) ∧
    split_batches (-1) 0 = .error PyError.zeroDivision :=
  ⟨(split_batches_error_kinds (-1) 50).1 (by decide),
   (split_batches_error_kinds (-1) 0).2 rfl⟩

/-! ### Claims about the pagination driver -/

/-- Unfolding `search_youtube` once the plan is known. -/
theorem search_youtube_eq (fetch : FetchCap) (subject : String)
    (N w utcNow tz : Int) (plan : List Int)
    (hplan : split_batches N 50 = .ok plan) :
    search_youtube fetch subject N w utcNow tz =
      ((runPlan fetch subject
          (formatTimestamp (utcNow + tz - w * 604800)) plan Option.none).1,
       (runPlan fetch subject
          (formatTimestamp (utcNow + tz - w * 604800)) plan
          Option.none).2.map List.flatten) := by
  simp only [search_youtube, hplan]

/-- C2: for every fetch capability and query, the driver issues
exactly one fetch per planned page size (plan computed by the planner
with cap 50), in plan order, passing the planned size as the
requested result count; the first call carries an absent continuation
token and every subsequent call carries exactly the token returned by
the immediately preceding call.  On the spec's scenario — query
`langchain`, 120 desired, 4 weeks, against the fake capability with
pages [50,50,20] and tokens [t1,t2,absent] — the plan is [50,50,20],
exactly 3 calls are made, the second passing `t1` and the third
passing `t2`, and 120 records are returned. -/
theorem search_youtube_call_discipline (fetch : FetchCap)
    (subject : String) (N w utcNow tz : Int) :
    (∀ plan records,
      split_batches N 50 = .ok plan →
      (search_youtube fetch subject N w utcNow tz).2 = .ok records →
      (search_youtube fetch subject N w utcNow tz).1.map
        (fun c => c.maxResults) = plan) ∧
    (∀ c, (search_youtube fetch subject N w utcNow tz).1[0]? = some c →
      c.pageToken = Option.none) ∧
    (∀ (i : Nat) c1 c2,
      (search_youtube fetch subject N w utcNow tz).1[i]? = some c1 →
      (search_youtube fetch subject N w utcNow tz).1[i + 1]? = some c2 →
      ∃ page t, fetch c1 = .ok (page, t) ∧ c2.pageToken = t) ∧
    split_batches 120 50 = .ok [50, 50, 20] ∧
    (search_youtube fakeFetch "langchain" 120 4 0 0).1.map
      (fun c => c.maxResults) = [50, 50, 20] ∧
    (search_youtube fakeFetch "langchain" 120 4 0 0).1.length = 3 ∧
    (search_youtube fakeFetch "langchain" 120 4 0 0).1.map
      (fun c => c.pageToken) = [Option.none, some "t1", some "t2"] ∧
    (∃ records, (search_youtube fakeFetch "langchain" 120 4 0 0).2
      = .ok records ∧ records.length = 120) := by
  obtain ⟨plan0, hplan0⟩ : ∃ l, split_batches N 50 = .ok l :=
    ⟨_, split_batches_ok N 50 (by decide)⟩
  have hse := search_youtube_eq fetch subject N w utcNow tz plan0 hplan0
  refine ⟨?_, ?_, ?_, by decide, by decide, by decide, by decide,
    ⟨_, rfl, by decide⟩⟩
  · intro plan records hplan hrec
    rw [hplan0] at hplan
    injection hplan with hplan
    subst hplan
    rw [hse] at hrec ⊢
    rcases hres : (runPlan fetch subject
        (formatTimestamp (utcNow + tz - w * 604800)) plan0
        Option.none).2 with e | pages
    · rw [hres, except_map_error] at hrec
      exact absurd hrec (by simp)
    · exact (runPlan_calls_of_ok fetch subject _ plan0 Option.none _
        pages (by rw [← hres])).1
  · intro c hc
    rw [hse] at hc
    exact (runPlan_head fetch subject _ plan0 Option.none _ _ c rfl hc).1
  · intro i c1 c2 h1 h2
    rw [hse] at h1 h2
    exact runPlan_thread fetch subject _ plan0 Option.none _ _ i c1 c2
      rfl h1 h2

/-- C2 witness: the planned sizes are the requested result counts on
the spec's driver scenario. -/
theorem search_youtube_call_discipline_witness :
    (search_youtube fakeFetch "langchain" 120 4 0 0).1.map
      (fun c => c.maxResults) = [50, 50, 20] :=
  (search_youtube_call_discipline fakeFetch "langchain" 120 4 0 0).1
    [50, 50, 20] _ (by decide) rfl

/-- C3 counterexample: with a capability that signals exhaustion
(absent token) on its second call and hands out `t1` again on an
absent-token call, a 200-item run (plan [50,50,50,50]) still issues
all four calls — but the fourth remaining call passes token `t1`, not
an absent token, because the restarted pagination returned a fresh
token.  The claim's "passing an absent token on each of those calls"
fails at this input. -/
theorem driver_restart_token_cex :
    (search_youtube cycleFetch "q" 200 4 0 0).1.map (fun c => c.pageToken)
      = [Option.none, some "t1", Option.none, some "t1"] ∧
    cycleFetch ⟨"q", 50, "1969-12-04T00:00:00Z", some "t1"⟩
      = .ok (fakePage 50, Option.none) ∧
    (search_youtube cycleFetch "q" 200 4 0 0).1.length = 4 ∧
    ((search_youtube cycleFetch "q" 200 4 0 0).1.map
      (fun c => c.pageToken))[3]? = some (some "t1") ∧
    (some "t1" : Option String) ≠ Option.none ∧
    (∃ records, (search_youtube cycleFetch "q" 200 4 0 0).2 = .ok records ∧
      records.length = 200) := by
  refine ⟨by decide, by decide, by decide, by decide, by decide,
    ⟨_, rfl, by decide⟩⟩

/-- C3 amended: the driver never short-circuits — a successful run
issues exactly one call per planned element even when the capability
signals exhaustion early — and the call immediately following a
response with an absent continuation token passes an absent token
(restarting pagination); the calls after that thread whatever tokens
the restarted pagination returns, so they need not be absent. -/
theorem driver_restart_behavior (fetch : FetchCap) (subject : String)
    (N w utcNow tz : Int) :
    (∀ plan records, split_batches N 50 = .ok plan →
      (search_youtube fetch subject N w utcNow tz).2 = .ok records →
      (search_youtube fetch subject N w utcNow tz).1.length
        = plan.length) ∧
    (∀ (i : Nat) c1 c2 page,
      (search_youtube fetch subject N w utcNow tz).1[i]? = some c1 →
      (search_youtube fetch subject N w utcNow tz).1[i + 1]? = some c2 →
      fetch c1 = .ok (page, Option.none) →
      c2.pageToken = Option.none) := by
  obtain ⟨plan0, hplan0⟩ : ∃ l, split_batches N 50 = .ok l :=
    ⟨_, split_batches_ok N 50 (by decide)⟩
  have hse := search_youtube_eq fetch subject N w utcNow tz plan0 hplan0
  constructor
  · intro plan records hplan hrec
    rw [hplan0] at hplan
    injection hplan with hplan
    subst hplan
    rw [hse] at hrec ⊢
    rcases hres : (runPlan fetch subject
        (formatTimestamp (utcNow + tz - w * 604800)) plan0
        Option.none).2 with e | pages
    · rw [hres, except_map_error] at hrec
      exact absurd hrec (by simp)
    · have hmap := (runPlan_calls_of_ok fetch subject _ plan0 Option.none _
        pages (by rw [← hres])).1
      have hlen := congrArg List.length hmap
      rw [List.length_map] at hlen
      exact hlen
  · intro i c1 c2 page h1 h2 hfc
    rw [hse] at h1 h2
    obtain ⟨page2, t, hf2, htok⟩ := runPlan_thread fetch subject _ plan0
      Option.none _ _ i c1 c2 rfl h1 h2
    rw [hfc] at hf2
    injection hf2 with hf2
    injection hf2 with hfa hfb
    rw [htok]
    exact hfb.symm

/-- C3 witness: the amended claim on the restart scenario — four
calls issued for the four planned pages, and the call after the
exhaustion signal passes an absent token. -/
theorem driver_restart_behavior_witness :
    (search_youtube cycleFetch "q" 200 4 0 0).1.length
      = [(50 : Int), 50, 50, 50].length ∧
    (FetchCall.mk "q" 50 "1969-12-04T00:00:00Z" Option.none).pageToken
      = Option.none :=
  ⟨(driver_restart_behavior cycleFetch "q" 200 4 0 0).1 [50, 50, 50, 50]
      _ (by decide) rfl,
   (driver_restart_behavior cycleFetch "q" 200 4 0 0).2 1
     ⟨"q", 50, "1969-12-04T00:00:00Z", some "t1"⟩
     ⟨"q", 50, "1969-12-04T00:00:00Z", Option.none⟩ (fakePage 50)
     (by decide) (by decide) (by decide)⟩

/-- C8: if the fetch capability fails at a call the driver issued,
the failure propagates unhandled as the run's result — no records are
returned — and that call is the last one: no further planned fetches
are issued. -/
theorem search_youtube_failure_propagates (fetch : FetchCap)
    (subject : String) (N w utcNow tz : Int) (i : Nat) (c : FetchCall)
    (e : PyError)
    (hc : (search_youtube fetch subject N w utcNow tz).1[i]? = some c)
    (hfc : fetch c = .error e) :
    (search_youtube fetch subject N w utcNow tz).1.length = i + 1 ∧
    (search_youtube fetch subject N w utcNow tz).2 = .error e := by
  obtain ⟨plan0, hplan0⟩ : ∃ l, split_batches N 50 = .ok l :=
    ⟨_, split_batches_ok N 50 (by decide)⟩
  have hse := search_youtube_eq fetch subject N w utcNow tz plan0 hplan0
  rw [hse] at hc ⊢
  obtain ⟨h1, h2⟩ := runPlan_stop fetch subject _ plan0 Option.none _ _
    i c e rfl hc hfc
  exact ⟨h1, by rw [h2, except_map_error]⟩

/-- C8 witness: a capability that fails on its second call — the run
issues exactly two calls and surfaces the failure. -/
theorem search_youtube_failure_propagates_witness :
    (search_youtube failFetch "q" 120 4 0 0).1.length = 1 + 1 ∧
    (search_youtube failFetch "q" 120 4 0 0).2
      = .error (PyError.fetchFailure "boom") :=
  search_youtube_failure_propagates failFetch "q" 120 4 0 0 1
    ⟨"q", 50, "1969-12-04T00:00:00Z", some "t1"⟩
    (PyError.fetchFailure "boom") (by decide) (by decide)

/-- C4 (code bug): the `publishedAfter` bound is computed from the
local wall clock (`datetime.now()`) yet rendered with a literal `Z`
(UTC) designator.  At the UTC instant 1970-01-01T00:00:00Z in a
timezone one hour east of UTC, a 4-week-lookback run stamps every
fetch call with "1969-12-04T01:00:00Z", while the UTC instant four
weeks before now renders as "1969-12-04T00:00:00Z" — the bound is not
the UTC instant the claim requires. -/
theorem search_youtube_published_after_local_time_bug :
    (search_youtube fakeFetch "langchain" 120 4 0 3600).1.map
      (fun c => c.publishedAfter)
      = ["1969-12-04T01:00:00Z", "1969-12-04T01:00:00Z",
         "1969-12-04T01:00:00Z"] ∧
    formatTimestamp (0 - 4 * 604800) = "1969-12-04T00:00:00Z" ∧
    ("1969-12-04T01:00:00Z" : String) ≠ "1969-12-04T00:00:00Z" := by
  refine ⟨by decide, by decide, by decide⟩

/-- A successful `Option`-monadic map carries any pointwise length-
style invariant across: if `f a = some b` forces `h b = g a`, the
output's image under `h` is the input's image under `g`. -/
theorem mapM_option_map_eq {α β γ : Type} (f : α → Option β)
    (g : α → γ) (hfun : β → γ)
    (hfg : ∀ a b, f a = some b → hfun b = g a) :
    ∀ (l : List α) (l2 : List β), l.mapM f = some l2 →
      l2.map hfun = l.map g := by
  intro l
  induction l with
  | nil =>
    intro l2 h
    simp only [List.mapM_nil, pure, Option.some.injEq] at h
    subst h
    rfl
  | cons a rest ih =>
    intro l2 h
    rw [List.mapM_cons] at h
    rcases hfa : f a with _ | b0 <;> rw [hfa] at h
    · simp at h
    · rcases hrest : rest.mapM f with _ | l3 <;> rw [hrest] at h
      · simp at h
      · simp at h
        subst h
        simp [hfg a b0 hfa, ih l3 hrest]

/-- C6: a successful run's result is exactly the flattening, in page
order, of the per-item normalization of the raw pages the capability
returned — item order inside each page preserved — so the record
count is the sum of the returned page sizes. -/
theorem search_youtube_flatten_order (fetch : FetchCap)
    (subject : String) (N w utcNow tz : Int) (records : List Dict)
    (hrec : (search_youtube fetch subject N w utcNow tz).2
      = .ok records) :
    ∃ (rawPages : List Page) (parsedPages : List (List Dict)),
      rawPages.length =
        (search_youtube fetch subject N w utcNow tz).1.length ∧
      (∀ (i : Nat) c raw,
        (search_youtube fetch subject N w utcNow tz).1[i]? = some c →
        rawPages[i]? = some raw → ∃ t, fetch c = .ok (raw, t)) ∧
      rawPages.mapM (fun p => p.mapM parse_youtube_response)
        = some parsedPages ∧
      records = parsedPages.flatten ∧
      records.length = (rawPages.map List.length).sum := by
  obtain ⟨plan0, hplan0⟩ : ∃ l, split_batches N 50 = .ok l :=
    ⟨_, split_batches_ok N 50 (by decide)⟩
  have hse := search_youtube_eq fetch subject N w utcNow tz plan0 hplan0
  rw [hse] at hrec ⊢
  rcases hres : (runPlan fetch subject
      (formatTimestamp (utcNow + tz - w * 604800)) plan0
      Option.none).2 with e | pages
  · rw [hres, except_map_error] at hrec
    exact absurd hrec (by simp)
  · rw [hres, except_map_ok] at hrec
    injection hrec with hrec
    subst hrec
    obtain ⟨rawPages, hlen, hcall, hmap⟩ := runPlan_content fetch subject
      _ plan0 Option.none _ pages (by rw [← hres])
    refine ⟨rawPages, pages, hlen, hcall, hmap, rfl, ?_⟩
    rw [List.length_flatten]
    have := mapM_option_map_eq (fun p => p.mapM parse_youtube_response)
      List.length List.length
      (fun a b hb => mapM_option_length parse_youtube_response a b hb)
      rawPages pages hmap
    rw [this]

/-- C6 witness: the scenario run's 120 records are the flattening of
the three fake pages. -/
theorem search_youtube_flatten_order_witness :
    ∃ records, (search_youtube fakeFetch "langchain" 120 4 0 0).2
        = .ok records ∧
      ∃ (rawPages : List Page) (parsedPages : List (List Dict)),
        rawPages.length =
          (search_youtube fakeFetch "langchain" 120 4 0 0).1.length ∧
        (∀ (i : Nat) c raw,
          (search_youtube fakeFetch "langchain" 120 4 0 0).1[i]?
            = some c →
          rawPages[i]? = some raw → ∃ t, fakeFetch c = .ok (raw, t)) ∧
        rawPages.mapM (fun p => p.mapM parse_youtube_response)
          = some parsedPages ∧
        records = parsedPages.flatten ∧
        records.length = (rawPages.map List.length).sum :=
  ⟨_, rfl, search_youtube_flatten_order fakeFetch "langchain" 120 4 0 0
    _ rfl⟩

/-! ### Claims about the normalizer -/

/-- Every entry surviving the `None` filter is an original entry with
a non-`None` value. -/
theorem mem_filter_values (d : Dict) (kv : String × Value)
    (h : kv ∈ d.filter (fun kv => kv.2 ≠ Value.none)) :
    kv ∈ d ∧ kv.2 ≠ Value.none := by
  have h2 := List.mem_filter.1 h
  exact ⟨h2.1, of_decide_eq_true h2.2⟩

/-- Dropping `None`-valued entries removes a key entirely when every
entry under that key holds `None`. -/
theorem lookup_filter_none (k : String) (d : Dict)
    (h : ∀ kv ∈ d, kv.1 = k → kv.2 = Value.none) :
    (d.filter (fun kv => kv.2 ≠ Value.none)).lookup k
      = Option.none := by
  rw [List.lookup_eq_none_iff]
  intro p hp
  obtain ⟨hmem, hval⟩ := mem_filter_values d p hp
  have hne : p.1 ≠ k := fun he => hval (h p hmem he)
  simp only [bne_iff_ne, ne_eq]
  exact fun he => hne he.symm

/-- When `snippet` and `id` view as dicts, the normalizer succeeds
and its output is the fixed flattened entry list with the
`None`-valued entries dropped. -/
theorem parse_eq_filter (response data idDict : Dict)
    (hs : pyGetDictD response "snippet" = some data)
    (hid : pyGetDictD response "id" = some idDict) :
    parse_youtube_response response = some
      (([("etag", pyGet response "etag"),
         ("kind", pyGet response "kind"),
         ("videoId", pyGet idDict "videoId"),
         ("channelId", pyGet data "channelId"),
         ("publishedAt", pyGet data "publishedAt"),
         ("title", pyGet data "title"),
         ("description", pyGet data "description"),
         ("thumbnails", pyGet data "thumbnails"),
         ("channelTitle", pyGet data "channelTitle"),
         ("liveBroadcastContent", pyGet data "liveBroadcastContent"),
         ("publishTime", pyGet data "publishTime")] : Dict).filter
        (fun kv => kv.2 ≠ Value.none)) := by
  rw [parse_youtube_response]
  rw [hs, hid]
  rfl

/-- Shape of any successful normalizer output: keys come from the
fixed record key set and no surviving value is `None`. -/
theorem parse_output_shape (response rec : Dict)
    (h : parse_youtube_response response = some rec) :
    ∀ kv ∈ rec, kv.1 ∈ resultRecordKeys ∧ kv.2 ≠ Value.none := by
  rcases hs : pyGetDictD response "snippet" with _ | data
  · rw [parse_youtube_response, hs] at h
    simp at h
  rcases hid : pyGetDictD response "id" with _ | idDict
  · rw [parse_youtube_response, hs, hid] at h
    simp at h
  rw [parse_eq_filter response data idDict hs hid] at h
  injection h with h
  subst h
  intro kv hkv
  obtain ⟨hmem, hval⟩ := mem_filter_values _ kv hkv
  refine ⟨?_, hval⟩
  simp only [List.mem_cons, List.not_mem_nil, or_false] at hmem
  rcases hmem with h | h | h | h | h | h | h | h | h | h | h <;>
    simp [h, resultRecordKeys]

/-- Every record a successful run returns is a normalizer output. -/
theorem search_youtube_records_from_parse (fetch : FetchCap)
    (subject : String) (N w utcNow tz : Int) (records : List Dict)
    (h : (search_youtube fetch subject N w utcNow tz).2 = .ok records) :
    ∀ rec ∈ records, ∃ r, parse_youtube_response r = some rec := by
  obtain ⟨plan0, hplan0⟩ : ∃ l, split_batches N 50 = .ok l :=
    ⟨_, split_batches_ok N 50 (by decide)⟩
  rw [search_youtube_eq fetch subject N w utcNow tz plan0 hplan0] at h
  rcases hres : (runPlan fetch subject
      (formatTimestamp (utcNow + tz - w * 604800)) plan0
      Option.none).2 with e | pages
  · rw [hres, except_map_error] at h
    exact absurd h (by simp)
  · rw [hres, except_map_ok] at h
    injection h with h
    subst h
    obtain ⟨rawPages, -, -, hmap⟩ := runPlan_content fetch subject
      _ plan0 Option.none _ pages (by rw [← hres])
    intro rec hrec
    obtain ⟨pg, hpg, hrecpg⟩ := List.mem_flatten.1 hrec
    obtain ⟨raw, -, hraw⟩ := mapM_option_mem _ rawPages pages hmap pg hpg
    obtain ⟨item, -, hitem⟩ := mapM_option_mem _ raw pg hraw rec hrecpg
    exact ⟨item, hitem⟩

/-- C10: for every raw item whose `snippet` and `id` fields, when
present, view as dicts, the normalizer succeeds and produces a record
whose keys are drawn from the fixed key set with no `None` value —
and every record any successful driver run returns has this shape. -/
theorem parse_record_shape (response data idDict : Dict)
    (hs : pyGetDictD response "snippet" = some data)
    (hid : pyGetDictD response "id" = some idDict) :
    (∃ rec, parse_youtube_response response = some rec ∧
      ∀ kv ∈ rec, kv.1 ∈ resultRecordKeys ∧ kv.2 ≠ Value.none) ∧
    (∀ (fetch : FetchCap) (subject : String) (N w utcNow tz : Int)
        (records : List Dict),
      (search_youtube fetch subject N w utcNow tz).2 = .ok records →
      ∀ rec ∈ records, ∀ kv ∈ rec,
        kv.1 ∈ resultRecordKeys ∧ kv.2 ≠ Value.none) := by
  constructor
  · exact ⟨_, parse_eq_filter response data idDict hs hid,
      parse_output_shape response _
        (parse_eq_filter response data idDict hs hid)⟩
  · intro fetch subject N w utcNow tz records hrun rec hrec
    obtain ⟨r, hr⟩ := search_youtube_records_from_parse fetch subject
      N w utcNow tz records hrun rec hrec
    exact parse_output_shape r rec hr

/-- C10 witness: the empty raw item — both nested fields absent —
parses to a record of the required shape. -/
theorem parse_record_shape_witness :
    ∃ rec, parse_youtube_response [] = some rec ∧
      ∀ kv ∈ rec, kv.1 ∈ resultRecordKeys ∧ kv.2 ≠ Value.none :=
  (parse_record_shape [] [] [] rfl rfl).1

/-- C7: a raw item whose snippet lacks `description` parses to a
record with no `description` key at all (partial records are valid),
and more generally every key a record carries maps to a non-`None`
source value. -/
theorem parse_missing_description (response snippetD idDict : Dict)
    (hs : response.lookup "snippet" = some (Value.dict snippetD))
    (hid : pyGetDictD response "id" = some idDict)
    (hd : snippetD.lookup "description" = Option.none) :
    ∃ rec, parse_youtube_response response = some rec ∧
      rec.lookup "description" = Option.none ∧
      ∀ kv ∈ rec, kv.2 ≠ Value.none := by
  have hs2 : pyGetDictD response "snippet" = some snippetD := by
    rw [pyGetDictD, hs]
    rfl
  have hv : pyGet snippetD "description" = Value.none := by
    rw [pyGet, hd]
    rfl
  refine ⟨_, parse_eq_filter response snippetD idDict hs2 hid, ?_, ?_⟩
  · apply lookup_filter_none
    intro kv hkv hk1
    simp only [List.mem_cons, List.not_mem_nil, or_false] at hkv
    rcases hkv with h | h | h | h | h | h | h | h | h | h | h <;>
      subst h <;> first
        | exact hv
        | exact absurd hk1 (by simp)
  · intro kv hkv
    exact (mem_filter_values _ kv hkv).2

/-- C7 witness: a concrete item with `etag`, an id, and a snippet
holding only a title — the parsed record has no `description` key. -/
theorem parse_missing_description_witness :
    ∃ rec, parse_youtube_response itemNoDesc = some rec ∧
      rec.lookup "description" = Option.none ∧
      ∀ kv ∈ rec, kv.2 ≠ Value.none :=
  parse_missing_description itemNoDesc [("title", Value.str "t")]
    [("videoId", Value.str "v")] rfl rfl rfl
